import Mathlib

/-!
Verification development for the xwiki-stack markup-translation and
content-synchronization engine.

The Python source is shallowly embedded over `List Char`.  Each
`re.sub(pattern, repl, text)` call of the source is modelled by a
left-to-right scan (`reSub`) that, at every position, tries to match the
concrete pattern (each pattern gets a hand-written matcher reproducing the
regex's greedy/lazy semantics on that pattern), replaces the first match,
and resumes scanning right after the consumed text, exactly as `re.sub`
does.  The scan threads the previously consumed character so that
lookbehind (`(?<!\*)`) and MULTILINE `^` anchors behave as in Python.
All definitions are fuel-structural, hence executable by kernel reduction.
-/

/-- The result of matching a pattern at the current position:
replacement text, last consumed source character, remaining input. -/
abbrev MatchRes := List Char × Char × List Char

/-- A matcher: given the previously consumed character (`none` at the very
start of the string) and the remaining input, try to match the pattern at
this exact position. -/
abbrev Matcher := Option Char → List Char → Option MatchRes

/-- Strip a literal pattern from the front of a list, returning the rest. -/
def stripPfx : List Char → List Char → Option (List Char)
  | [], s => some s
  | _ :: _, [] => none
  | p :: ps, c :: cs => if c = p then stripPfx ps cs else none

/-- Split at the first occurrence of a literal pattern: returns the text
before the occurrence and the text after it (the non-greedy `(.*?)lit`
semantics of the source's regexes). -/
def splitFirst (pat : List Char) : List Char → Option (List Char × List Char)
  | [] => match stripPfx pat [] with
    | some rest => some ([], rest)
    | none => none
  | c :: cs => match stripPfx pat (c :: cs) with
    | some rest => some ([], rest)
    | none => match splitFirst pat cs with
      | some (a, b) => some (c :: a, b)
      | none => none

/-- Substring test (used for `[^>]*lit[^>]*` attribute containment). -/
def containsSub (pat l : List Char) : Bool :=
  (splitFirst pat l).isSome

/-- Python's `\s` on ASCII input (space, tab, newline, CR, VT, FF). -/
def isPyWs (c : Char) : Bool :=
  c == ' ' || c == '\t' || c == '\n' || c == '\r' || c == '\x0b' || c == '\x0c'

/-- Python's `\w` on ASCII input. -/
def isWordChar (c : Char) : Bool :=
  c.isAlphanum || c == '_'

/-- MULTILINE `^`: the scan is at a line start when nothing has been
consumed yet or the last consumed character is a newline. -/
def isLS : Option Char → Bool
  | none => true
  | some c => c == '\n'

/-- The `re.sub` scan: at each position try the matcher; on success emit
the replacement and resume after the consumed text, otherwise emit one
character and advance.  `fuel` bounds the recursion; every matcher of this
development consumes at least one character, so `fuel = input length`
makes the scan complete. -/
def reSub (m : Matcher) : Nat → Option Char → List Char → List Char
  | _, _, [] => []
  | 0, _, s => s
  | f + 1, prev, c :: cs =>
    match m prev (c :: cs) with
    | some (repl, lastc, rest) => repl ++ reSub m f (some lastc) rest
    | none => c :: reSub m f (some c) cs

/-- One full `re.sub` pass over a string. -/
def runSub (m : Matcher) (s : List Char) : List Char :=
  reSub m s.length none s

/-- Matcher combinator: require a literal pattern at the current position,
then hand the rest to a continuation. -/
def withPfx (lit : List Char) (k : List Char → Option MatchRes) (s : List Char) :
    Option MatchRes :=
  match stripPfx lit s with
  | some r => k r
  | none => none

/-- `[^>]*>` after an already-consumed open literal: the attribute text up
to the first `>` and the rest after the `>`. -/
def tagAttrs (r : List Char) : Option (List Char × List Char) :=
  match r.dropWhile (fun c => c != '>') with
  | '>' :: rest => some (r.takeWhile (fun c => c != '>'), rest)
  | _ => none

/-- `re.sub(r"\n{3,}", "\n\n", text)`: collapse every run of three or more
newlines to exactly two. -/
def collapseBlankF : Nat → List Char → List Char
  | 0, s => s
  | _ + 1, [] => []
  | f + 1, c :: cs =>
    if c = '\n' then
      let run := cs.takeWhile (fun d => d == '\n')
      let rest := cs.dropWhile (fun d => d == '\n')
      if run.length + 1 ≥ 3 then '\n' :: '\n' :: collapseBlankF f rest
      else (c :: run) ++ collapseBlankF f rest
    else c :: collapseBlankF f cs

/-- Entry point for the blank-line collapse. -/
def collapseBlank (s : List Char) : List Char :=
  collapseBlankF s.length s

/-- Python `str.strip()` on ASCII input. -/
def pyStripL (s : List Char) : List Char :=
  ((s.dropWhile isPyWs).reverse.dropWhile isPyWs).reverse

/-- Python `str.strip()` at the `String` level. -/
def pyStripS (s : String) : String :=
  (pyStripL s.toList).asString

/- ### Markdown → XWiki (`_md_to_xwiki` of `bridge/app/routers/github_sync.py`) -/

def hashChar : Char := '#'

def btickChar : Char := '\x60'

def fenceL : List Char := [btickChar, btickChar, btickChar]

def eqRun (n : Nat) : List Char := List.replicate n '='

def hashRun (n : Nat) : List Char := List.replicate n hashChar

/-- Replacement for markdown heading level `n`: `"=..= \1 =..="`. -/
def mdHeadRepl (n : Nat) (content : List Char) : List Char :=
  eqRun n ++ ' ' :: content ++ ' ' :: eqRun n

/-- Body of `^#{n}\s+(.+)$` after the hashes have been consumed: greedy
`\s+`, then `(.+)` (non-newline, at least one char), then MULTILINE `$`.
When the whitespace run reaches the end of the string the engine
backtracks `\s+` so that `(.+)` still gets one (whitespace, non-newline)
character, exactly as Python's backtracking does. -/
def mdHeadBody (n : Nat) (r0 : List Char) : Option MatchRes :=
  let w := r0.takeWhile isPyWs
  let r := r0.dropWhile isPyWs
  if w.isEmpty then none
  else
    match r with
    | c :: _ =>
      let content := r.takeWhile (fun d => d != '\n')
      let rest := r.dropWhile (fun d => d != '\n')
      some (mdHeadRepl n content, content.getLastD c, rest)
    | [] =>
      match w.reverse.dropWhile (fun d => d == '\n') with
      | [] => none
      | wj :: coreRest =>
        if coreRest.isEmpty then none
        else
          some (mdHeadRepl n [wj], wj,
            (w.reverse.takeWhile (fun d => d == '\n')).reverse)

/-- `re.sub(r"^#{n}\s+(.+)$", r"={n} \1 ={n}", text, flags=re.MULTILINE)`. -/
def mdHeadingM (n : Nat) : Matcher := fun prev s =>
  if isLS prev then
    withPfx (hashRun n) (fun r0 => mdHeadBody n r0) s
  else none

/-- `_replace_code_block` of the source: the replacement function for the
fenced-code-block regex, taking the two captured groups. -/
def replace_code_block (lang code : String) : String :=
  if lang ≠ "" then
    "\x7b\x7bcode language=\x27" ++ lang ++ "\x27\x7d\x7d\n" ++ code ++ "\n\x7b\x7b/code\x7d\x7d"
  else
    "\x7b\x7bcode\x7d\x7d\n" ++ code ++ "\n\x7b\x7b/code\x7d\x7d"

/-- ``re.sub(r"```(\w*)\n(.*?)```", _replace_code_block, text, flags=re.DOTALL)``. -/
def codeblockM : Matcher := fun _ s =>
  withPfx fenceL (fun r0 =>
    let lang := r0.takeWhile isWordChar
    match r0.dropWhile isWordChar with
    | '\n' :: r2 =>
      match splitFirst fenceL r2 with
      | some (code, rest) =>
        some ((replace_code_block lang.asString code.asString).toList, btickChar, rest)
      | none => none
    | _ => none) s

/-- ``re.sub(r"`([^`]+)`", r"##\1##", text)``. -/
def inlineCodeM : Matcher := fun _ s =>
  withPfx [btickChar] (fun r =>
    let inner := r.takeWhile (fun c => c != btickChar)
    if inner.isEmpty then none
    else
      match r.dropWhile (fun c => c != btickChar) with
      | _ :: rest => some ('#' :: '#' :: inner ++ '#' :: '#' :: [], btickChar, rest)
      | [] => none) s

/-- Does the list start with an asterisk? -/
def headIsStar : List Char → Bool
  | '*' :: _ => true
  | _ => false

/-- `re.sub(r"(?<!\*)\*(?!\*)([^*]+?)(?<!\*)\*(?!\*)", r"//\1//", text)`:
a single `*` (not part of a `**` run) opens, the shortest run of
non-asterisks follows, and a single closing `*` (again not part of `**`)
ends the italic span. -/
def italicM : Matcher := fun prev s =>
  match s with
  | [] => none
  | c :: r =>
    if c = '*' then
      if prev == some '*' then none
      else if headIsStar r then none
      else
        let inner := r.takeWhile (fun d => d != '*')
        match r.dropWhile (fun d => d != '*') with
        | '*' :: rest =>
          if headIsStar rest then none
          else some ('/' :: '/' :: inner ++ '/' :: '/' :: [], '*', rest)
        | _ => none
    else none

/-- `re.sub(r"\[([^\]]+)\]\(([^)]+)\)", r"[[\1>>\2]]", text)`. -/
def linkM : Matcher := fun _ s =>
  withPfx ['['] (fun r =>
    let txt := r.takeWhile (fun c => c != ']')
    if txt.isEmpty then none
    else
      match r.dropWhile (fun c => c != ']') with
      | ']' :: '(' :: r2 =>
        let url := r2.takeWhile (fun c => c != ')')
        if url.isEmpty then none
        else
          match r2.dropWhile (fun c => c != ')') with
          | ')' :: rest =>
            some ('[' :: '[' :: txt ++ '>' :: '>' :: url ++ ']' :: ']' :: [], ')', rest)
          | _ => none
      | _ => none) s

/-- `re.sub(r"!\[([^\]]*)\]\(([^)]+)\)", r'[[image:\2||alt="\1"]]', text)`. -/
def imageM : Matcher := fun _ s =>
  withPfx ['!', '['] (fun r =>
    let alt := r.takeWhile (fun c => c != ']')
    match r.dropWhile (fun c => c != ']') with
    | ']' :: '(' :: r2 =>
      let url := r2.takeWhile (fun c => c != ')')
      if url.isEmpty then none
      else
        match r2.dropWhile (fun c => c != ')') with
        | ')' :: rest =>
          some (("[[image:").toList ++ url ++ ("||alt=\"").toList ++ alt ++ ("\"]]").toList,
            ')', rest)
        | _ => none
    | _ => none) s

/-- `re.sub(r"^---+$", "----", text, flags=re.MULTILINE)`. -/
def hrM : Matcher := fun prev s =>
  if isLS prev then
    let ds := s.takeWhile (fun c => c == '-')
    if ds.length ≥ 3 then
      match s.dropWhile (fun c => c == '-') with
      | [] => some (('-' :: '-' :: '-' :: '-' :: []), '-', [])
      | '\n' :: rest => some (('-' :: '-' :: '-' :: '-' :: []), '-', '\n' :: rest)
      | _ => none
    else none
  else none

/-- The `_md_to_xwiki` pass chain on character lists, in source order:
headings 6..1, fenced code blocks, inline code, italic, links, images,
horizontal rules. -/
def mdPasses (l : List Char) : List Char :=
  runSub hrM (runSub imageM (runSub linkM (runSub italicM (runSub inlineCodeM
    (runSub codeblockM (runSub (mdHeadingM 1) (runSub (mdHeadingM 2)
      (runSub (mdHeadingM 3) (runSub (mdHeadingM 4) (runSub (mdHeadingM 5)
        (runSub (mdHeadingM 6) l)))))))))))

/-- `_md_to_xwiki` of `bridge/app/routers/github_sync.py`. -/
def md_to_xwiki (s : String) : String :=
  (mdPasses s.toList).asString

/- ### Confluence storage → XWiki
(`confluence_storage_to_xwiki` of `scripts/migrate_confluence.py`) -/

/-- `re.sub(r"<!\[CDATA\[(.*?)\]\]>", r"\1", text, flags=re.DOTALL)`. -/
def cdataM : Matcher := fun _ s =>
  withPfx (("<![CDATA[").toList) (fun r =>
    match splitFirst (("]]>").toList) r with
    | some (inner, rest) => some (inner, '>', rest)
    | none => none) s

/-- Open literal of `<h{i}[^>]*>`. -/
def hOpen (i : Nat) : List Char := '<' :: 'h' :: (Nat.toDigits 10 i)

/-- Close literal `</h{i}>`. -/
def hClose (i : Nat) : List Char := '<' :: '/' :: 'h' :: (Nat.toDigits 10 i) ++ ['>']

/-- `re.sub(rf"<h{i}[^>]*>(.*?)</h{i}>", rf"\n{eq} \1 {eq}\n", text, flags=re.DOTALL)`. -/
def confHeadingM (i : Nat) : Matcher := fun _ s =>
  withPfx (hOpen i) (fun r =>
    match tagAttrs r with
    | some (_, r1) =>
      match splitFirst (hClose i) r1 with
      | some (inner, rest) =>
        some ('\n' :: eqRun i ++ ' ' :: inner ++ ' ' :: eqRun i ++ ['\n'], '>', rest)
      | none => none
    | none => none) s

/-- A literal-delimited inline pass: `re.sub(op ++ "(.*?)" ++ cl, pre ++ \1 ++ post)`
with DOTALL, e.g. `<strong>(.*?)</strong>` → `**\1**`. -/
def inlineWrapM (op cl pre post : List Char) : Matcher := fun _ s =>
  withPfx op (fun r =>
    match splitFirst cl r with
    | some (inner, rest) => some (pre ++ inner ++ post, '>', rest)
    | none => none) s

def strongM : Matcher :=
  inlineWrapM (("<strong>").toList) (("</strong>").toList) (['*', '*']) (['*', '*'])

def bM : Matcher :=
  inlineWrapM (("<b>").toList) (("</b>").toList) (['*', '*']) (['*', '*'])

def emM : Matcher :=
  inlineWrapM (("<em>").toList) (("</em>").toList) (['/', '/']) (['/', '/'])

def iM : Matcher :=
  inlineWrapM (("<i>").toList) (("</i>").toList) (['/', '/']) (['/', '/'])

def structOpenLit : List Char := ("<ac:structured-macro").toList

def structCloseLit : List Char := ("</ac:structured-macro>").toList

/-- `ac:name="{name}"`, the attribute the macro regexes require inside the
opening tag. -/
def acNameLit (name : List Char) : List Char :=
  ("ac:name=\"").toList ++ name ++ ['"']

/-- `re.sub(r'<ac:structured-macro[^>]*ac:name="code"[^>]*>.*?<ac:plain-text-body>
(.*?)</ac:plain-text-body>.*?</ac:structured-macro>', "\n{{code}}\n\1\n{{/code}}\n",
text, flags=re.DOTALL)`.  Note: the replacement carries no language tag; any
`<ac:parameter ac:name="language">` is swallowed by the first `.*?`. -/
def codeMacroM : Matcher := fun _ s =>
  withPfx structOpenLit (fun r =>
    match tagAttrs r with
    | some (attrs, r1) =>
      if containsSub (acNameLit (("code").toList)) attrs then
        match splitFirst (("<ac:plain-text-body>").toList) r1 with
        | some (_, r2) =>
          match splitFirst (("</ac:plain-text-body>").toList) r2 with
          | some (inner, r3) =>
            match splitFirst structCloseLit r3 with
            | some (_, rest) =>
              some (("\n\x7b\x7bcode\x7d\x7d\n").toList ++ inner ++
                ("\n\x7b\x7b/code\x7d\x7d\n").toList, '>', rest)
            | none => none
          | none => none
        | none => none
      else none
    | none => none) s

def confInlineCodeM : Matcher :=
  inlineWrapM (("<code>").toList) (("</code>").toList) (['#', '#']) (['#', '#'])

/-- Remainders of the input after each occurrence of `href="` that starts
before the first `>` (the candidate backtracking positions of
`<a[^>]*href="`), in left-to-right order. -/
def hrefCands : List Char → List (List Char)
  | [] => []
  | c :: cs =>
    if c = '>' then []
    else
      match stripPfx (("href=\"").toList) (c :: cs) with
      | some r => r :: hrefCands cs
      | none => hrefCands cs

/-- Try one candidate position for the `<a>` regex: `([^"]*)"[^>]*>(.*?)</a>`. -/
def aTryOne (rem : List Char) : Option MatchRes :=
  let url := rem.takeWhile (fun c => c != '"')
  match rem.dropWhile (fun c => c != '"') with
  | '"' :: r2 =>
    match r2.dropWhile (fun c => c != '>') with
    | '>' :: r3 =>
      match splitFirst (("</a>").toList) r3 with
      | some (txt, rest) =>
        some ('[' :: '[' :: txt ++ '>' :: '>' :: url ++ ']' :: ']' :: [], '>', rest)
      | none => none
    | _ => none
  | _ => none

/-- Backtracking order of a greedy `[^>]*`: last candidate first. -/
def aTry : List (List Char) → Option MatchRes
  | [] => none
  | c :: cs =>
    match aTryOne c with
    | some x => some x
    | none => aTry cs

/-- `re.sub(r'<a[^>]*href="([^"]*)"[^>]*>(.*?)</a>', r"[[\2>>\1]]", text,
flags=re.DOTALL)`. -/
def aM : Matcher := fun _ s =>
  withPfx (['<', 'a']) (fun r => aTry (hrefCands r).reverse) s

/-- `re.sub(r'<ac:link><ri:page ri:content-title="([^"]*)"[^/]*/>'
r"(?:<ac:plain-text-link-body>(.*?)</ac:plain-text-link-body>)?</ac:link>",
lambda m: f"[[{m.group(2) or m.group(1)}>>{m.group(1)}]]", text, flags=re.DOTALL)`.
The optional body group is resolved at the first closing marker, with
greedy preference for taking the group (a body whose text itself contains
the closing marker would escape this embedding's backtracking). -/
def acLinkM : Matcher := fun _ s =>
  withPfx (("<ac:link><ri:page ri:content-title=\"").toList) (fun r =>
    let title := r.takeWhile (fun c => c != '"')
    match r.dropWhile (fun c => c != '"') with
    | '"' :: r2 =>
      match r2.dropWhile (fun c => c != '/') with
      | '/' :: '>' :: r3 =>
        let finish := fun (body : Option (List Char)) (rest : List Char) =>
          let txt := match body with
            | some b => if b.isEmpty then title else b
            | none => title
          some ('[' :: '[' :: txt ++ '>' :: '>' :: title ++ ']' :: ']' :: [], '>', rest)
        match stripPfx (("<ac:plain-text-link-body>").toList) r3 with
        | some r4 =>
          match splitFirst (("</ac:plain-text-link-body>").toList) r4 with
          | some (body, r5) =>
            match stripPfx (("</ac:link>").toList) r5 with
            | some rest => finish (some body) rest
            | none =>
              match stripPfx (("</ac:link>").toList) r3 with
              | some rest => finish none rest
              | none => none
          | none =>
            match stripPfx (("</ac:link>").toList) r3 with
            | some rest => finish none rest
            | none => none
        | none =>
          match stripPfx (("</ac:link>").toList) r3 with
          | some rest => finish none rest
          | none => none
      | _ => none
    | _ => none) s

/-- `re.sub(r"<tag[^>]*>", repl, text)`: an open tag with attributes. -/
def openTagM (lit repl : List Char) : Matcher := fun _ s =>
  withPfx lit (fun r =>
    match tagAttrs r with
    | some (_, rest) => some (repl, '>', rest)
    | none => none) s

/-- `re.sub(lit, repl, text)` for a plain literal such as `</ul>`. -/
def litM (lit repl : List Char) : Matcher := fun _ s =>
  withPfx lit (fun rest => some (repl, '>', rest)) s

/-- `re.sub(r"<li[^>]*>(.*?)</li>", r"* \1", text, flags=re.DOTALL)` and the
`<th>`/`<td>`/`<p>` passes of the same shape. -/
def openCloseM (lit close pre post : List Char) : Matcher := fun _ s =>
  withPfx lit (fun r =>
    match tagAttrs r with
    | some (_, r1) =>
      match splitFirst close r1 with
      | some (inner, rest) => some (pre ++ inner ++ post, '>', rest)
      | none => none
    | none => none) s

/-- `re.sub(r"<br\s*/?>", "\n", text)`. -/
def brM : Matcher := fun _ s =>
  withPfx (("<br").toList) (fun r =>
    match r.dropWhile isPyWs with
    | '/' :: '>' :: rest => some (['\n'], '>', rest)
    | '>' :: rest => some (['\n'], '>', rest)
    | _ => none) s

/-- `re.sub(r'<ac:image[^>]*>.*?<ri:attachment ri:filename="([^"]*)"[^/]*/>
.*?</ac:image>', r"[[image:\1]]", text, flags=re.DOTALL)`. -/
def confImageM : Matcher := fun _ s =>
  withPfx (("<ac:image").toList) (fun r =>
    match tagAttrs r with
    | some (_, r1) =>
      match splitFirst (("<ri:attachment ri:filename=\"").toList) r1 with
      | some (_, r2) =>
        let fname := r2.takeWhile (fun c => c != '"')
        match r2.dropWhile (fun c => c != '"') with
        | '"' :: r3 =>
          match r3.dropWhile (fun c => c != '/') with
          | '/' :: '>' :: r4 =>
            match splitFirst (("</ac:image>").toList) r4 with
            | some (_, rest) =>
              some (("[[image:").toList ++ fname ++ [']', ']'], '>', rest)
            | none => none
          | _ => none
        | _ => none
      | none => none
    | none => none) s

/-- The callout-macro pass for one macro name: `re.sub(rf'<ac:structured-macro
[^>]*ac:name="{name}"[^>]*>.*?<ac:rich-text-body>(.*?)</ac:rich-text-body>
.*?</ac:structured-macro>', rf"\n{{{{{name}}}}}\n\1\n{{{{{name}}}}}\n", ...)`.
Note the replacement's terminator is `{{name}}` again, not `{{/name}}`. -/
def calloutM (name : List Char) : Matcher := fun _ s =>
  withPfx structOpenLit (fun r =>
    match tagAttrs r with
    | some (attrs, r1) =>
      if containsSub (acNameLit name) attrs then
        match splitFirst (("<ac:rich-text-body>").toList) r1 with
        | some (_, r2) =>
          match splitFirst (("</ac:rich-text-body>").toList) r2 with
          | some (inner, r3) =>
            match splitFirst structCloseLit r3 with
            | some (_, rest) =>
              some ('\n' :: '\x7b' :: '\x7b' :: name ++ '\x7d' :: '\x7d' :: '\n' :: inner ++
                '\n' :: '\x7b' :: '\x7b' :: name ++ '\x7d' :: '\x7d' :: '\n' :: [], '>', rest)
            | none => none
          | none => none
        | none => none
      else none
    | none => none) s

/-- `re.sub(r"<[^>]+>", "", text)`: strip every remaining tag. -/
def stripTagsM : Matcher := fun _ s =>
  withPfx (['<']) (fun r =>
    let inner := r.takeWhile (fun c => c != '>')
    if inner.isEmpty then none
    else
      match r.dropWhile (fun c => c != '>') with
      | '>' :: rest => some ([], '>', rest)
      | _ => none) s

/-- Modelled from the Python stdlib: `html.unescape`, restricted to the
five XML named entities and decimal/hexadecimal numeric references with a
terminating semicolon (the only entity forms this development feeds it). -/
def ampTable : List (List Char × Char) :=
  [(("amp;").toList, '&'), (("lt;").toList, '<'), (("gt;").toList, '>'),
   (("quot;").toList, '"'), (("apos;").toList, '\x27')]

def ampLookup : List (List Char × Char) → List Char → Option MatchRes
  | [], _ => none
  | (pat, ch) :: rest, r =>
    match stripPfx pat r with
    | some r2 => some ([ch], ';', r2)
    | none => ampLookup rest r

/-- Digits of a decimal numeric character reference. -/
def decVal : List Char → Nat → Nat
  | [], acc => acc
  | c :: cs, acc => decVal cs (acc * 10 + (c.toNat - 48))

def ampM : Matcher := fun _ s =>
  withPfx (['&']) (fun r =>
    match r with
    | '#' :: r2 =>
      let digits := r2.takeWhile (fun c => c.isDigit)
      if digits.isEmpty then none
      else
        match r2.dropWhile (fun c => c.isDigit) with
        | ';' :: rest => some ([Char.ofNat (decVal digits 0)], ';', rest)
        | _ => none
    | _ => ampLookup ampTable r) s

/-- The `confluence_storage_to_xwiki` pass chain on character lists, in
source order: CDATA, headings 1–6, strong/b, em/i, code macro, inline
code, `<a>` links, Confluence links, lists, tables, line breaks,
paragraphs, images, callout macros, tag stripping, entity decoding,
blank-line collapse, final strip. -/
def confluencePasses (l : List Char) : List Char :=
  pyStripL (collapseBlank (runSub ampM (runSub stripTagsM
    (runSub (calloutM (("tip").toList)) (runSub (calloutM (("note").toList))
      (runSub (calloutM (("warning").toList)) (runSub (calloutM (("info").toList))
        (runSub confImageM (runSub (openCloseM (("<p").toList) (("</p>").toList) [] ['\n'])
          (runSub brM (runSub (openCloseM (("<td").toList) (("</td>").toList) ['|'] [])
            (runSub (openCloseM (("<th").toList) (("</th>").toList) ['|', '='] [])
              (runSub (litM (("</tr>").toList) ['\n']) (runSub (openTagM (("<tr").toList) [])
                (runSub (litM (("</tbody>").toList) []) (runSub (openTagM (("<tbody").toList) [])
                  (runSub (litM (("</table>").toList) []) (runSub (openTagM (("<table").toList) [])
                    (runSub (litM (("</ol>").toList) []) (runSub (openTagM (("<ol").toList) [])
                      (runSub (openCloseM (("<li").toList) (("</li>").toList) ['*', ' '] [])
                        (runSub (litM (("</ul>").toList) []) (runSub (openTagM (("<ul").toList) [])
                          (runSub acLinkM (runSub aM (runSub confInlineCodeM
                            (runSub codeMacroM (runSub iM (runSub emM (runSub bM
                              (runSub strongM (runSub (confHeadingM 6) (runSub (confHeadingM 5)
                                (runSub (confHeadingM 4) (runSub (confHeadingM 3)
                                  (runSub (confHeadingM 2) (runSub (confHeadingM 1)
                                    (runSub cdataM l))))))))))))))))))))))))))))))))))))))

/-- `confluence_storage_to_xwiki` of `scripts/migrate_confluence.py`. -/
def confluence_storage_to_xwiki (s : String) : String :=
  (confluencePasses s.toList).asString

/- ### Page-name sanitizers -/

/-- The character class of `re.sub(r"[^a-zA-Z0-9_\- ]", "", title)`. -/
def sanKeep (c : Char) : Bool :=
  c.isAlpha || c.isDigit || c == '_' || c == '-' || c == ' '

/-- `sanitize_page_name` of `scripts/migrate_confluence.py`: drop every
character outside `[a-zA-Z0-9_\- ]`, turn spaces into underscores,
truncate to 100. -/
def sanitize_page_name (title : String) : String :=
  ((((title.toList.filter sanKeep).map
    (fun c => if c = ' ' then '_' else c)).take 100)).asString

/-- The character class of the bridge's `re.sub(r"[^a-zA-Z0-9_-]", "_", name)`. -/
def sanKeepBridge (c : Char) : Bool :=
  c.isAlpha || c.isDigit || c == '_' || c == '-'

/-- `_sanitize_page_name` of `bridge/app/routers/github_sync.py`: replace
every character outside `[a-zA-Z0-9_-]` with an underscore. -/
def sanitize_page_name_bridge (name : String) : String :=
  (name.toList.map (fun c => if sanKeepBridge c then c else '_')).asString

/- ### Page-tree builder (`build_page_tree` of `scripts/migrate_confluence.py`) -/

/-- A Confluence page as `build_page_tree` reads it: its id and the ids of
its `ancestors` (ordered root → immediate parent; the code uses
`ancestors[-1]["id"]`). -/
structure ConfPage where
  id : String
  ancestors : List String
deriving DecidableEq, Repr

/-- `tree.setdefault(parent_id, []).append(page)` over an insertion-ordered
dict, modelled as an association list. -/
def treeAdd (t : List (String × List ConfPage)) (k : String) (p : ConfPage) :
    List (String × List ConfPage) :=
  match t with
  | [] => [(k, [p])]
  | (k0, ps) :: rest =>
    if k0 = k then (k0, ps ++ [p]) :: rest else (k0, ps) :: treeAdd rest k p

/-- `ancestors[-1]["id"] if ancestors else "root"`. -/
def parentKey (p : ConfPage) : String :=
  match p.ancestors.getLast? with
  | some a => a
  | none => "root"

/-- `build_page_tree` of `scripts/migrate_confluence.py`. -/
def build_page_tree (pages : List ConfPage) : List (String × List ConfPage) :=
  pages.foldl (fun t p => treeAdd t (parentKey p) p) []

/-- Bucket lookup in the built tree. -/
def treeLookup (t : List (String × List ConfPage)) (k : String) : Option (List ConfPage) :=
  match t with
  | [] => none
  | (k0, ps) :: rest => if k0 = k then some ps else treeLookup rest k

/- ### DOCX → XWiki (`_docx_to_xwiki` of `bridge/app/routers/word_import.py`) -/

/-- One inline run of a DOCX paragraph (`run.text`, `run.bold`, `run.italic`). -/
structure DocxRun where
  text : String
  bold : Bool
  italic : Bool
deriving DecidableEq, Repr

/-- One DOCX paragraph: its style name (`para.style` may be `None`) and its
runs; `para.text` is the concatenation of the run texts. -/
structure DocxPara where
  styleName : Option String
  runs : List DocxRun
deriving DecidableEq, Repr

/-- `para.text`: concatenation of the runs' text. -/
def paraText (p : DocxPara) : String :=
  String.join (p.runs.map (fun r => r.text))

/-- ASCII lowercase of a string (Python `str.lower()` on ASCII input),
implemented over the character list so it evaluates by kernel reduction. -/
def pyLower (s : String) : String :=
  (s.toList.map Char.toLower).asString

/-- Python `sub in s` substring containment. -/
def strContains (s sub : String) : Bool :=
  containsSub sub.toList s.toList

/-- The per-run formatting of `_docx_to_xwiki` (the `parts.append` branch):
note the source's `f"**//{ t }//***"` for a run that is both bold and
italic — three trailing asterisks. -/
def runPart (r : DocxRun) : List String :=
  if r.text = "" then []
  else if r.bold && r.italic then ["**//" ++ r.text ++ "//***"]
  else if r.bold then ["**" ++ r.text ++ "**"]
  else if r.italic then ["//" ++ r.text ++ "//"]
  else [r.text]

/-- One paragraph's output line in `_docx_to_xwiki`. -/
def docxParaLine (p : DocxPara) : String :=
  let style := match p.styleName with
    | some n => pyLower n
    | none => ""
  let text := pyStripS (paraText p)
  if text = "" then ""
  else if strContains style ("heading 1") then "= " ++ text ++ " ="
  else if strContains style ("heading 2") then "== " ++ text ++ " =="
  else if strContains style ("heading 3") then "=== " ++ text ++ " ==="
  else if strContains style ("list") then "* " ++ text
  else
    let parts := (p.runs.map runPart).flatten
    if parts.isEmpty then text else String.join parts

/-- `_docx_to_xwiki` of `bridge/app/routers/word_import.py`. -/
def docx_to_xwiki (paras : List DocxPara) : String :=
  String.intercalate "\n" (paras.map docxParaLine)

/- ### Batch sync orchestrator (`migrate` of `scripts/migrate_confluence.py`) -/

/-- One attachment as the migrate loop sees it, together with the outcomes
of the two network calls made for it (`confluence.download_attachment`,
`xwiki.upload_attachment`), modelled as oracles so the loop's exception
handling can be followed faithfully. -/
structure AttInput where
  title : String
  downloadLink : String
  mediaType : String
  download : Except String String
  upload : Except String Unit
deriving Repr

/-- One fetched page together with the outcomes of the per-page network
calls (`xwiki.put_page`, `confluence.get_page_attachments`). -/
structure PageInput where
  title : String
  id : String
  storageBody : String
  putPage : Except String Unit
  attachmentsFetch : Except String (List AttInput)
deriving Repr

/-- The observable state of one `migrate` run: the `migrated` counter, the
`errors` report list, everything printed, the pages successfully written
(name, title, content) and the attachments successfully uploaded. -/
structure MigrateState where
  migrated : Nat
  errors : List String
  printed : List String
  putPages : List (String × String × String)
  uploaded : List (String × String)
deriving Repr

def initMigrateState : MigrateState :=
  ⟨0, [], [], [], []⟩

/-- The migration-metadata header prepended to every page. -/
def migrateHeader (space pid : String) : String :=
  "\x7b\x7binfo\x7d\x7d\nMigrated from Confluence space **" ++ space ++
    "**, page ID " ++ pid ++ ".\n\x7b\x7b/info\x7d\x7d\n\n"

/-- The inner per-attachment loop body with its own `try/except`: a failed
download or upload is printed and swallowed; nothing is recorded in
`errors`. -/
def migrateAtt (pageName : String) (st : MigrateState) (att : AttInput) : MigrateState :=
  if att.downloadLink != "" && att.title != "" then
    match att.download with
    | .error e =>
      { st with printed := st.printed ++ ["    Attachment error (" ++ att.title ++ "): " ++ e] }
    | .ok _ =>
      match att.upload with
      | .error e =>
        { st with printed := st.printed ++ ["    Attachment error (" ++ att.title ++ "): " ++ e] }
      | .ok _ =>
        { st with uploaded := st.uploaded ++ [(pageName, att.title)],
                  printed := st.printed ++ ["    Attachment: " ++ att.title] }
  else st

/-- The per-page loop body of `migrate` (with `dry_run = False`): the outer
`try` covers conversion, page write, attachment listing and the attachment
loop; on an exception `f"{title}: {e}"` is appended to `errors` and the
loop continues with the next page. -/
def migratePage (space xspace : String) (st : MigrateState) (p : PageInput) : MigrateState :=
  let pageName0 := sanitize_page_name p.title
  let pageName := if pageName0 = "" then "Page_" ++ p.id else pageName0
  let st := { st with printed :=
    st.printed ++ ["  Migrating: " ++ p.title ++ " -> " ++ xspace ++ "/" ++ pageName] }
  let content := migrateHeader space p.id ++ confluence_storage_to_xwiki p.storageBody
  match p.putPage with
  | .error e =>
    { st with errors := st.errors ++ [p.title ++ ": " ++ e],
              printed := st.printed ++ ["    ERROR: " ++ e] }
  | .ok _ =>
    let st := { st with putPages := st.putPages ++ [(pageName, p.title, content)] }
    match p.attachmentsFetch with
    | .error e =>
      { st with errors := st.errors ++ [p.title ++ ": " ++ e],
                printed := st.printed ++ ["    ERROR: " ++ e] }
    | .ok atts =>
      let st := atts.foldl (migrateAtt pageName) st
      { st with migrated := st.migrated + 1 }

/-- The `migrate` batch loop of `scripts/migrate_confluence.py` over an
already-fetched page list. -/
def migrate (space : String) (pages : List PageInput) : MigrateState :=
  pages.foldl (migratePage space ("Confluence_" ++ space)) initMigrateState

/-- The target store's page-name grammar: `[A-Za-z0-9_-]`. -/
def sanAllowed (c : Char) : Bool :=
  c.isAlpha || c.isDigit || c == '_' || c == '-'

/- ### Canonical-markup checkers (for the fixed-point property) -/

/-- Every asterisk is adjacent to another asterisk (no lone `*`, so the
italic pattern `(?<!\*)\*(?!\*)…` can never fire).  The flag records
whether the previous character was an asterisk. -/
def noLone : Bool → List Char → Bool
  | _, [] => true
  | pStar, c :: cs =>
    if c = '*' then (pStar || headIsStar cs) && noLone true cs
    else noLone false cs

/-- No line starts with a dash (so `^---+$` can never fire).  The flag
records whether the scan is at a line start. -/
def noDashLS : Bool → List Char → Bool
  | _, [] => true
  | atLS, c :: cs => (!(atLS && c == '-')) && noDashLS (c == '\n') cs

/-- Does `x` immediately followed by `y` occur anywhere in the list? -/
def hasPair (x y : Char) : List Char → Bool
  | a :: b :: rest => (a == x && b == y) || hasPair x y (b :: rest)
  | _ => false

/-- Does a run of three consecutive newlines occur anywhere in the list? -/
def hasTripleNl : List Char → Bool
  | c1 :: c2 :: c3 :: rest =>
    (c1 == '\n' && c2 == '\n' && c3 == '\n') || hasTripleNl (c2 :: c3 :: rest)
  | _ => false

/-- The first character, if any, is not whitespace. -/
def headNotWs (l : List Char) : Bool :=
  match l.head? with
  | some c => !(isPyWs c)
  | none => true

/-- The last character, if any, is not whitespace. -/
def lastNotWs (l : List Char) : Bool :=
  match l.getLast? with
  | some c => !(isPyWs c)
  | none => true

/-- A string already in canonical target markup, as far as the Markdown
rewriter's patterns are concerned: no `#`, no backtick, no `!`, no lone
asterisk, no `](`, and no line starting with a dash.  Canonical headings
`= H =`, bold `**b**`, italic `//i//` and links `[[text>>url]]` all
satisfy this. -/
def mdCanonicalL (l : List Char) : Bool :=
  !(l.contains '#') && !(l.contains btickChar) && !(l.contains '!') &&
    noLone false l && !(hasPair ']' '(' l) && noDashLS true l

def mdCanonical (s : String) : Bool := mdCanonicalL s.toList

/-- A string already in canonical target markup, as far as the
Confluence-storage rewriter's patterns are concerned: no `<`, no `&`, no
triple-newline run, and no surrounding whitespace (the rewriter's own
output is always stripped). -/
def confCanonicalL (l : List Char) : Bool :=
  !(l.contains '<') && !(l.contains '&') && !(hasTripleNl l) &&
    headNotWs l && lastNotWs l

def confCanonical (s : String) : Bool := confCanonicalL s.toList

/- ### Engine lemmas: a pass that never matches is the identity -/

/-- The matcher returns `none` at every position the scan visits (the
threaded `prev` is the actually consumed previous character). -/
def ScanNone (m : Matcher) : Option Char → List Char → Prop
  | _, [] => True
  | p, c :: cs => m p (c :: cs) = none ∧ ScanNone m (some c) cs

theorem reSub_id (m : Matcher) : ∀ f p s, ScanNone m p s → reSub m f p s = s := by
  intro f
  induction f with
  | zero => intro p s _; cases s <;> rfl
  | succ f ih =>
    intro p s h
    cases s with
    | nil => rfl
    | cons c cs =>
      have h1 : m p (c :: cs) = none := h.1
      simp only [reSub, h1]
      exact congrArg (c :: ·) (ih (some c) cs h.2)

theorem scanNone_of_head (m : Matcher) (c0 : Char)
    (hm : ∀ p c cs, c ≠ c0 → m p (c :: cs) = none) :
    ∀ p s, c0 ∉ s → ScanNone m p s := by
  intro p s
  induction s generalizing p with
  | nil => intro _; trivial
  | cons c cs ih =>
    intro h
    refine ⟨hm p c cs ?_, ih (some c) ?_⟩
    · intro e; exact h (e ▸ List.mem_cons_self c cs)
    · intro hc; exact h (List.mem_cons_of_mem _ hc)

theorem withPfx_head_ne (lit : List Char) (k : List Char → Option MatchRes)
    (p0 c : Char) (cs : List Char) (hl : lit.head? = some p0) (hc : c ≠ p0) :
    withPfx lit k (c :: cs) = none := by
  cases lit with
  | nil => simp at hl
  | cons a as =>
    obtain rfl : a = p0 := by simpa using hl
    simp [withPfx, stripPfx, hc]

/-- A full pass whose matcher requires a literal starting with `c0` is the
identity on strings not containing `c0`. -/
theorem runSub_withPfx_id (lit : List Char) (k : List Char → Option MatchRes)
    (c0 : Char) (hl : lit.head? = some c0) (l : List Char) (h : c0 ∉ l) :
    runSub (fun _ s => withPfx lit k s) l = l :=
  reSub_id _ _ _ _ (scanNone_of_head _ c0
    (fun _ c cs hc => withPfx_head_ne lit k c0 c cs hl hc) none l h)

/-- Same, for a line-start-anchored literal pass. -/
theorem runSub_lsPfx_id (lit : List Char) (k : List Char → Option MatchRes)
    (c0 : Char) (hl : lit.head? = some c0) (l : List Char) (h : c0 ∉ l) :
    runSub (fun prev s => if isLS prev then withPfx lit k s else none) l = l := by
  refine reSub_id _ _ _ _ (scanNone_of_head _ c0 (fun p c cs hc => ?_) none l h)
  cases hLS : isLS p <;> simp [hLS, withPfx_head_ne lit k c0 c cs hl hc]

/- ### Helper lemmas on the scanning primitives -/

theorem dropWhile_head_false (p : Char → Bool) (l : List Char) :
    ∀ c cs', l.dropWhile p = c :: cs' → p c = false := by
  induction l with
  | nil => intro c cs' h; simp [List.dropWhile] at h
  | cons a t ih =>
    intro c cs' h
    by_cases hp : p a = true
    · rw [List.dropWhile_cons, if_pos hp] at h
      exact ih c cs' h
    · rw [List.dropWhile_cons, if_neg hp] at h
      obtain ⟨rfl, -⟩ := List.cons.inj h
      simpa using hp

theorem takeWhile_length_le (p : Char → Bool) (l : List Char) :
    (l.dropWhile p).length ≤ l.length := by
  induction l with
  | nil => simp [List.dropWhile]
  | cons a t ih =>
    by_cases hp : p a = true
    · simp only [List.dropWhile_cons, if_pos hp, List.length_cons]
      omega
    · simp only [List.dropWhile_cons, if_neg hp, List.length_cons]
      omega

theorem suffix_hasPair (x y : Char) (es l : List Char) (h : (x :: y :: es) <:+ l) :
    hasPair x y l = true := by
  induction l with
  | nil => simp at h
  | cons a t ih =>
    rcases List.suffix_cons_iff.mp h with he | ht
    · obtain ⟨rfl, rfl⟩ := List.cons.inj he.symm
      simp [hasPair]
    · have h2 := ih ht
      cases t with
      | nil => simp [hasPair] at h2
      | cons b t2 => simp [hasPair, h2]

theorem hasPair_tail (x y c : Char) (cs : List Char) (h : hasPair x y (c :: cs) = false) :
    hasPair x y cs = false := by
  cases cs with
  | nil => rfl
  | cons b t =>
    have h' : ((c == x && b == y) || hasPair x y (b :: t)) = false := h
    exact (Bool.or_eq_false_iff.mp h').2

/- ### The italic pass never fires when every `*` run has length at least 2 -/

theorem scanNone_italic : ∀ p l, noLone (p == some '*') l = true → ScanNone italicM p l := by
  intro p l
  induction l generalizing p with
  | nil => intro _; trivial
  | cons c cs ih =>
    intro h
    by_cases hc : c = '*'
    · subst hc
      have h' : ((p == some '*') = true ∨ headIsStar cs = true) ∧ noLone true cs = true := by
        simpa [noLone, Bool.or_eq_true] using h
      refine ⟨?_, ?_⟩
      · show italicM p ('*' :: cs) = none
        rcases h'.1 with hp | hs
        · simp [italicM, hp]
        · simp [italicM, hs]
      · have : noLone ((some '*' : Option Char) == some '*') cs = true := by
          simpa using h'.2
        exact ih (some '*') this
    · refine ⟨?_, ?_⟩
      · show italicM p (c :: cs) = none
        simp [italicM, hc]
      · have : noLone ((some c : Option Char) == some '*') cs = true := by
          have hb : ((some c : Option Char) == some '*') = false := by
            simpa using hc
          rw [hb]
          simpa [noLone, hc] using h
        exact ih (some c) this

/- ### The link pass never fires when `](` never occurs -/

theorem scanNone_link : ∀ p l, hasPair ']' '(' l = false → ScanNone linkM p l := by
  intro p l
  induction l generalizing p with
  | nil => intro _; trivial
  | cons c cs ih =>
    intro h
    refine ⟨?_, ih (some c) (hasPair_tail _ _ _ _ h)⟩
    by_cases hc : c = '['
    · subst hc
      show linkM p ('[' :: cs) = none
      have hk : linkM p ('[' :: cs) =
          (let txt := cs.takeWhile (fun d => d != ']')
           if txt.isEmpty then none
           else
             match cs.dropWhile (fun d => d != ']') with
             | ']' :: '(' :: r2 =>
               let url := r2.takeWhile (fun d => d != ')')
               if url.isEmpty then none
               else
                 match r2.dropWhile (fun d => d != ')') with
                 | ')' :: rest =>
                   some ('[' :: '[' :: txt ++ '>' :: '>' :: url ++ ']' :: ']' :: [], ')', rest)
                 | _ => none
             | _ => none) := rfl
      rw [hk]
      by_cases ht : (cs.takeWhile (fun d => d != ']')).isEmpty
      · simp [ht]
      · simp only [ht, if_false, Bool.false_eq_true]
        cases hd : cs.dropWhile (fun d => d != ']') with
        | nil => simp
        | cons d ds =>
          have hdd : d = ']' := by
            simpa using dropWhile_head_false _ cs d ds hd
          subst hdd
          cases ds with
          | nil => simp
          | cons e es =>
            by_cases he : e = '('
            · subst he
              exfalso
              have hsuf : (']' :: '(' :: es) <:+ cs := by
                rw [← hd]; exact List.dropWhile_suffix _
              have : hasPair ']' '(' cs = true := suffix_hasPair _ _ _ _ hsuf
              rw [hasPair_tail _ _ _ _ h] at this
              exact Bool.false_ne_true this
            · simp [he]
    · exact withPfx_head_ne _ _ '[' c cs rfl hc

/- ### The horizontal-rule pass never fires when no line starts with a dash -/

theorem scanNone_hr : ∀ p l, noDashLS (isLS p) l = true → ScanNone hrM p l := by
  intro p l
  induction l generalizing p with
  | nil => intro _; trivial
  | cons c cs ih =>
    intro h
    have h' : (!(isLS p && c == '-')) = true ∧ noDashLS (c == '\n') cs = true := by
      simpa [noDashLS, -Bool.not_and] using h
    refine ⟨?_, ?_⟩
    · show hrM p (c :: cs) = none
      cases hLS : isLS p with
      | false => simp [hrM, hLS]
      | true =>
        have hcd : (c == '-') = false := by
          have := h'.1
          rw [hLS] at this
          simpa using this
        have hcd' : ¬ (c = '-') := by simpa using hcd
        simp [hrM, hLS, List.takeWhile_cons, hcd]
    · have : noDashLS (isLS (some c)) cs = true := by
        simpa [isLS] using h'.2
      exact ih (some c) this

/- ### The Markdown rewriter fixes canonical text -/

theorem mdPasses_id (l : List Char) (h : mdCanonicalL l = true) : mdPasses l = l := by
  have hc : (((('#' ∉ l ∧ btickChar ∉ l) ∧ '!' ∉ l) ∧ noLone false l = true) ∧
      hasPair ']' '(' l = false) ∧ noDashLS true l = true := by
    simpa [mdCanonicalL] using h
  obtain ⟨⟨⟨⟨⟨hm1, hm2⟩, hm3⟩, h4⟩, h5⟩, h6⟩ := hc
  have e6 : runSub (mdHeadingM 6) l = l := runSub_lsPfx_id (hashRun 6) _ '#' rfl l hm1
  have e5 : runSub (mdHeadingM 5) l = l := runSub_lsPfx_id (hashRun 5) _ '#' rfl l hm1
  have e4 : runSub (mdHeadingM 4) l = l := runSub_lsPfx_id (hashRun 4) _ '#' rfl l hm1
  have e3 : runSub (mdHeadingM 3) l = l := runSub_lsPfx_id (hashRun 3) _ '#' rfl l hm1
  have e2 : runSub (mdHeadingM 2) l = l := runSub_lsPfx_id (hashRun 2) _ '#' rfl l hm1
  have e1 : runSub (mdHeadingM 1) l = l := runSub_lsPfx_id (hashRun 1) _ '#' rfl l hm1
  have ecb : runSub codeblockM l = l := runSub_withPfx_id fenceL _ btickChar rfl l hm2
  have eic : runSub inlineCodeM l = l := runSub_withPfx_id [btickChar] _ btickChar rfl l hm2
  have eit : runSub italicM l = l :=
    reSub_id _ _ _ _ (scanNone_italic none l (by simpa using h4))
  have elk : runSub linkM l = l := reSub_id _ _ _ _ (scanNone_link none l h5)
  have eim : runSub imageM l = l := runSub_withPfx_id ['!', '['] _ '!' rfl l hm3
  have ehr : runSub hrM l = l := reSub_id _ _ _ _ (scanNone_hr none l (by simpa [isLS] using h6))
  unfold mdPasses
  rw [e6, e5, e4, e3, e2, e1, ecb, eic, eit, elk, eim, ehr]

/- ### Blank-line collapse and strip: identity on already-clean text -/

theorem collapse_nil : ∀ f, collapseBlankF f [] = [] := by
  intro f; cases f <;> rfl

theorem hasTriple_tail (c : Char) (cs : List Char) (h : hasTripleNl (c :: cs) = false) :
    hasTripleNl cs = false := by
  cases cs with
  | nil => rfl
  | cons b t =>
    cases t with
    | nil => rfl
    | cons d u =>
      have h' : ((c == '\n' && b == '\n' && d == '\n') || hasTripleNl (b :: d :: u)) = false := h
      exact (Bool.or_eq_false_iff.mp h').2

theorem hasTriple_suffix : ∀ {s' s : List Char}, s' <:+ s →
    hasTripleNl s = false → hasTripleNl s' = false := by
  intro s' s
  induction s generalizing s' with
  | nil =>
    intro h _
    rw [List.suffix_nil.mp h]; rfl
  | cons c cs ih =>
    intro h hf
    rcases List.suffix_cons_iff.mp h with he | ht
    · rw [he]; exact hf
    · exact ih ht (hasTriple_tail c cs hf)

theorem collapse_id : ∀ f l, hasTripleNl l = false → collapseBlankF f l = l := by
  intro f
  induction f with
  | zero => intro l _; rfl
  | succ f ih =>
    intro l hf
    cases l with
    | nil => rfl
    | cons c cs =>
      by_cases hc : c = '\n'
      · subst hc
        cases cs with
        | nil => simp [collapseBlankF, List.takeWhile, List.dropWhile, collapse_nil]
        | cons b t =>
          by_cases hb : b = '\n'
          · subst hb
            cases t with
            | nil => simp [collapseBlankF, List.takeWhile, List.dropWhile, collapse_nil]
            | cons d u =>
              by_cases hd : d = '\n'
              · exfalso
                subst hd
                simp [hasTripleNl] at hf
              · have hrest : hasTripleNl (d :: u) = false :=
                  hasTriple_tail _ _ (hasTriple_tail _ _ hf)
                have hd' : (d == '\n') = false := by simpa using hd
                simp [collapseBlankF, List.takeWhile, List.dropWhile, hd', ih _ hrest]
          · have hrest : hasTripleNl (b :: t) = false := hasTriple_tail _ _ hf
            have hb' : (b == '\n') = false := by simpa using hb
            simp [collapseBlankF, List.takeWhile, List.dropWhile, hb', ih _ hrest]
      · have hrest : hasTripleNl cs = false := hasTriple_tail _ _ hf
        simp [collapseBlankF, hc, ih _ hrest]

theorem pyStrip_id (l : List Char) (hh : headNotWs l = true) (hl : lastNotWs l = true) :
    pyStripL l = l := by
  cases l with
  | nil => rfl
  | cons c cs =>
    have hc : isPyWs c = false := by simpa [headNotWs] using hh
    have e1 : (c :: cs).dropWhile isPyWs = c :: cs := by
      simp [List.dropWhile_cons, hc]
    rw [pyStripL, e1]
    cases hrev : (c :: cs).reverse with
    | nil => exact absurd hrev (by simp)
    | cons d ds =>
      have hgl : (c :: cs).getLast? = some d := by
        rw [← List.head?_reverse, hrev]; rfl
      have hdws : isPyWs d = false := by simpa [lastNotWs, hgl] using hl
      have e2 : List.dropWhile isPyWs (d :: ds) = d :: ds := by
        simp [List.dropWhile_cons, hdws]
      rw [e2, ← hrev, List.reverse_reverse]

/- ### The Confluence rewriter fixes canonical text -/

theorem confPasses_id (l : List Char) (h : confCanonicalL l = true) : confluencePasses l = l := by
  have hc : ((('<' ∉ l ∧ '&' ∉ l) ∧ hasTripleNl l = false) ∧ headNotWs l = true) ∧
      lastNotWs l = true := by
    simpa [confCanonicalL] using h
  obtain ⟨⟨⟨⟨hlt, hamp⟩, htr⟩, hhn⟩, hln⟩ := hc
  have ecd : runSub cdataM l = l :=
    runSub_withPfx_id (("<![CDATA[").toList) _ '<' rfl l hlt
  have eh1 : runSub (confHeadingM 1) l = l := runSub_withPfx_id (hOpen 1) _ '<' rfl l hlt
  have eh2 : runSub (confHeadingM 2) l = l := runSub_withPfx_id (hOpen 2) _ '<' rfl l hlt
  have eh3 : runSub (confHeadingM 3) l = l := runSub_withPfx_id (hOpen 3) _ '<' rfl l hlt
  have eh4 : runSub (confHeadingM 4) l = l := runSub_withPfx_id (hOpen 4) _ '<' rfl l hlt
  have eh5 : runSub (confHeadingM 5) l = l := runSub_withPfx_id (hOpen 5) _ '<' rfl l hlt
  have eh6 : runSub (confHeadingM 6) l = l := runSub_withPfx_id (hOpen 6) _ '<' rfl l hlt
  have est : runSub strongM l = l := runSub_withPfx_id (("<strong>").toList) _ '<' rfl l hlt
  have eb : runSub bM l = l := runSub_withPfx_id (("<b>").toList) _ '<' rfl l hlt
  have eem : runSub emM l = l := runSub_withPfx_id (("<em>").toList) _ '<' rfl l hlt
  have ei : runSub iM l = l := runSub_withPfx_id (("<i>").toList) _ '<' rfl l hlt
  have ecm : runSub codeMacroM l = l := runSub_withPfx_id structOpenLit _ '<' rfl l hlt
  have eicd : runSub confInlineCodeM l = l :=
    runSub_withPfx_id (("<code>").toList) _ '<' rfl l hlt
  have ea : runSub aM l = l := runSub_withPfx_id (['<', 'a']) _ '<' rfl l hlt
  have eal : runSub acLinkM l = l :=
    runSub_withPfx_id (("<ac:link><ri:page ri:content-title=\"").toList) _ '<' rfl l hlt
  have eulo : runSub (openTagM (("<ul").toList) []) l = l :=
    runSub_withPfx_id (("<ul").toList) _ '<' rfl l hlt
  have eulc : runSub (litM (("</ul>").toList) []) l = l :=
    runSub_withPfx_id (("</ul>").toList) _ '<' rfl l hlt
  have eli : runSub (openCloseM (("<li").toList) (("</li>").toList) ['*', ' '] []) l = l :=
    runSub_withPfx_id (("<li").toList) _ '<' rfl l hlt
  have eolo : runSub (openTagM (("<ol").toList) []) l = l :=
    runSub_withPfx_id (("<ol").toList) _ '<' rfl l hlt
  have eolc : runSub (litM (("</ol>").toList) []) l = l :=
    runSub_withPfx_id (("</ol>").toList) _ '<' rfl l hlt
  have etbo : runSub (openTagM (("<table").toList) []) l = l :=
    runSub_withPfx_id (("<table").toList) _ '<' rfl l hlt
  have etbc : runSub (litM (("</table>").toList) []) l = l :=
    runSub_withPfx_id (("</table>").toList) _ '<' rfl l hlt
  have etyo : runSub (openTagM (("<tbody").toList) []) l = l :=
    runSub_withPfx_id (("<tbody").toList) _ '<' rfl l hlt
  have etyc : runSub (litM (("</tbody>").toList) []) l = l :=
    runSub_withPfx_id (("</tbody>").toList) _ '<' rfl l hlt
  have etro : runSub (openTagM (("<tr").toList) []) l = l :=
    runSub_withPfx_id (("<tr").toList) _ '<' rfl l hlt
  have etrc : runSub (litM (("</tr>").toList) ['\n']) l = l :=
    runSub_withPfx_id (("</tr>").toList) _ '<' rfl l hlt
  have eth : runSub (openCloseM (("<th").toList) (("</th>").toList) ['|', '='] []) l = l :=
    runSub_withPfx_id (("<th").toList) _ '<' rfl l hlt
  have etd : runSub (openCloseM (("<td").toList) (("</td>").toList) ['|'] []) l = l :=
    runSub_withPfx_id (("<td").toList) _ '<' rfl l hlt
  have ebr : runSub brM l = l := runSub_withPfx_id (("<br").toList) _ '<' rfl l hlt
  have ep : runSub (openCloseM (("<p").toList) (("</p>").toList) [] ['\n']) l = l :=
    runSub_withPfx_id (("<p").toList) _ '<' rfl l hlt
  have eimg : runSub confImageM l = l :=
    runSub_withPfx_id (("<ac:image").toList) _ '<' rfl l hlt
  have ecin : runSub (calloutM (("info").toList)) l = l :=
    runSub_withPfx_id structOpenLit _ '<' rfl l hlt
  have ecwa : runSub (calloutM (("warning").toList)) l = l :=
    runSub_withPfx_id structOpenLit _ '<' rfl l hlt
  have ecno : runSub (calloutM (("note").toList)) l = l :=
    runSub_withPfx_id structOpenLit _ '<' rfl l hlt
  have ecti : runSub (calloutM (("tip").toList)) l = l :=
    runSub_withPfx_id structOpenLit _ '<' rfl l hlt
  have esg : runSub stripTagsM l = l := runSub_withPfx_id (['<']) _ '<' rfl l hlt
  have eam : runSub ampM l = l := runSub_withPfx_id (['&']) _ '&' rfl l hamp
  have ecol : collapseBlank l = l := collapse_id l.length l htr
  have estr : pyStripL l = l := pyStrip_id l hhn hln
  unfold confluencePasses
  rw [ecd, eh1, eh2, eh3, eh4, eh5, eh6, est, eb, eem, ei, ecm, eicd, ea, eal, eulo,
    eulc, eli, eolo, eolc, etbo, etbc, etyo, etyc, etro, etrc, eth, etd, ebr, ep,
    eimg, ecin, ecwa, ecno, ecti, esg, eam, ecol, estr]

/- ### The collapse pass leaves no triple newline; strip leaves no edge whitespace -/

theorem mem_takeWhile_pred (p : Char → Bool) (l : List Char) :
    ∀ x, x ∈ l.takeWhile p → p x = true := by
  induction l with
  | nil => intro x h; simp [List.takeWhile] at h
  | cons a t ih =>
    intro x h
    by_cases hp : p a = true
    · rw [List.takeWhile_cons, if_pos hp] at h
      rcases List.mem_cons.mp h with rfl | h2
      · exact hp
      · exact ih x h2
    · rw [List.takeWhile_cons, if_neg hp] at h
      simp at h

theorem collapse_head_ne : ∀ f l, l.head? ≠ some '\n' →
    (collapseBlankF f l).head? ≠ some '\n' := by
  intro f l h
  cases f with
  | zero => exact h
  | succ f =>
    cases l with
    | nil => simp [collapseBlankF]
    | cons c cs =>
      have hc : ¬ (c = '\n') := fun e => h (by rw [e]; rfl)
      simp only [collapseBlankF, if_neg hc, List.head?_cons]
      simpa using hc

theorem hasTriple_cons_ne (c : Char) (t : List Char) (hc : c ≠ '\n')
    (hf : hasTripleNl t = false) : hasTripleNl (c :: t) = false := by
  cases t with
  | nil => rfl
  | cons d u =>
    cases u with
    | nil => rfl
    | cons e v =>
      have hc' : (c == '\n') = false := by simpa using hc
      show ((c == '\n' && d == '\n' && e == '\n') || hasTripleNl (d :: e :: v)) = false
      rw [hf, hc']
      simp

theorem hasTriple_nl_cons (r : List Char) (hr : r.head? ≠ some '\n')
    (hf : hasTripleNl r = false) : hasTripleNl ('\n' :: r) = false := by
  cases r with
  | nil => rfl
  | cons d u =>
    have hd : d ≠ '\n' := fun e => hr (by rw [e]; rfl)
    cases u with
    | nil => rfl
    | cons e v =>
      have hd' : (d == '\n') = false := by simpa using hd
      show (('\n' == '\n' && d == '\n' && e == '\n') || hasTripleNl (d :: e :: v)) = false
      rw [hf, hd']
      simp

theorem hasTriple_nl2_cons (r : List Char) (hr : r.head? ≠ some '\n')
    (hf : hasTripleNl r = false) : hasTripleNl ('\n' :: '\n' :: r) = false := by
  cases r with
  | nil => rfl
  | cons d u =>
    have hd : d ≠ '\n' := fun e => hr (by rw [e]; rfl)
    have hd' : (d == '\n') = false := by simpa using hd
    have h2 : hasTripleNl ('\n' :: d :: u) = false := hasTriple_nl_cons (d :: u) hr hf
    show (('\n' == '\n' && '\n' == '\n' && d == '\n') || hasTripleNl ('\n' :: d :: u)) = false
    rw [h2, hd']
    simp

theorem collapse_noTriple : ∀ f l, l.length ≤ f →
    hasTripleNl (collapseBlankF f l) = false := by
  intro f
  induction f with
  | zero =>
    intro l h
    rw [List.length_eq_zero.mp (Nat.le_zero.mp h)]
    rfl
  | succ f ih =>
    intro l hlen
    cases l with
    | nil => rfl
    | cons c cs =>
      have hlen' : cs.length ≤ f := by
        simp [List.length_cons] at hlen
        omega
      by_cases hc : c = '\n'
      · subst hc
        have hrest_head : (cs.dropWhile (fun d => d == '\n')).head? ≠ some '\n' := by
          cases hd : cs.dropWhile (fun d => d == '\n') with
          | nil => simp
          | cons d ds =>
            have hdf := dropWhile_head_false _ cs d ds hd
            simp only [List.head?_cons, ne_eq, Option.some.injEq]
            intro he
            rw [he] at hdf
            simp at hdf
        have hrest_len : (cs.dropWhile (fun d => d == '\n')).length ≤ f :=
          le_trans (takeWhile_length_le _ cs) hlen'
        have hrec := ih _ hrest_len
        have hrec_head := collapse_head_ne f _ hrest_head
        show hasTripleNl (collapseBlankF (f + 1) ('\n' :: cs)) = false
        simp only [collapseBlankF, if_pos rfl]
        by_cases hk : (cs.takeWhile (fun d => d == '\n')).length + 1 ≥ 3
        · rw [if_pos hk]
          exact hasTriple_nl2_cons _ hrec_head hrec
        · rw [if_neg hk]
          cases hrun : cs.takeWhile (fun d => d == '\n') with
          | nil => exact hasTriple_nl_cons _ hrec_head hrec
          | cons x xs =>
            have hx : x = '\n' := by
              have := mem_takeWhile_pred (fun d => d == '\n') cs x
                (by rw [hrun]; exact List.mem_cons_self x xs)
              simpa using this
            have hxs : xs = [] := by
              rw [hrun] at hk
              simp only [List.length_cons, ge_iff_le, not_le] at hk
              have hx0 : xs.length = 0 := by omega
              exact List.length_eq_zero.mp hx0
            subst hx
            subst hxs
            exact hasTriple_nl2_cons _ hrec_head hrec
      · show hasTripleNl (collapseBlankF (f + 1) (c :: cs)) = false
        simp only [collapseBlankF, if_neg hc]
        exact hasTriple_cons_ne c _ hc (ih cs hlen')

theorem noTriple_infix : ∀ l, hasTripleNl l = false → ¬ (['\n', '\n', '\n'] <:+: l) := by
  intro l
  induction l with
  | nil => intro _ hinf; simp at hinf
  | cons c cs ih =>
    intro hf hinf
    rcases List.infix_cons_iff.mp hinf with hpre | hinf2
    · obtain ⟨t, ht⟩ := hpre
      have : hasTripleNl (c :: cs) = true := by
        rw [← ht]
        simp [hasTripleNl]
      rw [hf] at this
      exact Bool.false_ne_true this
    · exact ih (hasTriple_tail _ _ hf) hinf2

theorem getLast?_of_suffix {B L : List Char} (h : B <:+ L) (hB : B ≠ []) :
    B.getLast? = L.getLast? := by
  obtain ⟨pre, rfl⟩ := h
  exact (List.getLast?_append_of_ne_nil pre hB).symm

theorem pyStrip_head (l : List Char) : ∀ c, (pyStripL l).head? = some c → isPyWs c = false := by
  intro c hc
  unfold pyStripL at hc
  rw [List.head?_reverse] at hc
  cases hB : (l.dropWhile isPyWs).reverse.dropWhile isPyWs with
  | nil => rw [hB] at hc; simp at hc
  | cons d ds =>
    have hBne : (l.dropWhile isPyWs).reverse.dropWhile isPyWs ≠ [] := by
      rw [hB]; simp
    have h1 : ((l.dropWhile isPyWs).reverse.dropWhile isPyWs).getLast? =
        ((l.dropWhile isPyWs).reverse).getLast? :=
      getLast?_of_suffix (List.dropWhile_suffix _) hBne
    rw [h1, List.getLast?_reverse] at hc
    cases hA : l.dropWhile isPyWs with
    | nil => rw [hA] at hc; simp at hc
    | cons a as =>
      rw [hA] at hc
      have hac : a = c := by simpa using hc
      exact hac ▸ dropWhile_head_false isPyWs l a as hA

theorem pyStrip_last (l : List Char) : ∀ c, (pyStripL l).getLast? = some c → isPyWs c = false := by
  intro c hc
  unfold pyStripL at hc
  rw [List.getLast?_reverse] at hc
  cases hB : (l.dropWhile isPyWs).reverse.dropWhile isPyWs with
  | nil => rw [hB] at hc; simp at hc
  | cons d ds =>
    rw [hB] at hc
    have hdc : d = c := by simpa using hc
    exact hdc ▸ dropWhile_head_false isPyWs _ d ds hB

theorem pyStrip_noTriple (Y : List Char) (hY : hasTripleNl Y = false) :
    ¬ (['\n', '\n', '\n'] <:+: pyStripL Y) := by
  intro hinf
  unfold pyStripL at hinf
  have htrr : (['\n', '\n', '\n'] : List Char).reverse = ['\n', '\n', '\n'] := rfl
  have h1 : ['\n', '\n', '\n'] <:+: (Y.dropWhile isPyWs).reverse.dropWhile isPyWs :=
    List.reverse_infix.mp (by rw [htrr]; exact hinf)
  have h2 : ['\n', '\n', '\n'] <:+: (Y.dropWhile isPyWs).reverse :=
    List.IsInfix.trans h1 (List.IsSuffix.isInfix (List.dropWhile_suffix _))
  have h3 : ['\n', '\n', '\n'] <:+: Y.dropWhile isPyWs :=
    List.reverse_infix.mp (by rw [htrr]; exact h2)
  have h4 : ['\n', '\n', '\n'] <:+: Y :=
    List.IsInfix.trans h3 (List.IsSuffix.isInfix (List.dropWhile_suffix _))
  exact noTriple_infix Y hY h4

/- ### String/list conversion facts -/

theorem toList_asString (l : List Char) : (List.asString l).toList = l := rfl

theorem asString_toList (s : String) : s.toList.asString = s := by
  cases s
  rfl

/- ### The migrate loop: every page is counted exactly once -/

theorem migrateAtt_report (pageName : String) (st : MigrateState) (a : AttInput) :
    (migrateAtt pageName st a).migrated = st.migrated ∧
    (migrateAtt pageName st a).errors = st.errors := by
  unfold migrateAtt
  by_cases h : (a.downloadLink != "" && a.title != "") = true
  · rw [if_pos h]
    cases a.download with
    | error e => exact ⟨rfl, rfl⟩
    | ok _ =>
      cases a.upload with
      | error e => exact ⟨rfl, rfl⟩
      | ok _ => exact ⟨rfl, rfl⟩
  · rw [if_neg h]
    exact ⟨rfl, rfl⟩

theorem migrateAtts_report (pageName : String) :
    ∀ (atts : List AttInput) (st : MigrateState),
      ((atts.foldl (migrateAtt pageName) st).migrated = st.migrated ∧
       (atts.foldl (migrateAtt pageName) st).errors = st.errors) := by
  intro atts
  induction atts with
  | nil => intro st; exact ⟨rfl, rfl⟩
  | cons a rest ih =>
    intro st
    have h1 := migrateAtt_report pageName st a
    have h2 := ih (migrateAtt pageName st a)
    exact ⟨h2.1.trans h1.1, h2.2.trans h1.2⟩

theorem migratePage_count (space xspace : String) (st : MigrateState) (p : PageInput) :
    (migratePage space xspace st p).migrated + (migratePage space xspace st p).errors.length
      = st.migrated + st.errors.length + 1 := by
  unfold migratePage
  cases p.putPage with
  | error e => simp; omega
  | ok _ =>
    cases p.attachmentsFetch with
    | error e => simp; omega
    | ok atts =>
      have h := migrateAtts_report
        (if sanitize_page_name p.title = "" then "Page_" ++ p.id else sanitize_page_name p.title)
        atts
      simp only []
      rw [(h _).1, (h _).2]
      simp [Nat.add_comm, Nat.add_assoc, Nat.add_left_comm]

theorem migrate_foldl_count (space xspace : String) :
    ∀ (pages : List PageInput) (st : MigrateState),
      (pages.foldl (migratePage space xspace) st).migrated +
        (pages.foldl (migratePage space xspace) st).errors.length
      = st.migrated + st.errors.length + pages.length := by
  intro pages
  induction pages with
  | nil => intro st; simp
  | cons p rest ih =>
    intro st
    have h1 := migratePage_count space xspace st p
    have h2 := ih (migratePage space xspace st p)
    simp only [List.foldl_cons, List.length_cons]
    rw [h2, h1]
    omega

theorem migrate_count (space : String) (pages : List PageInput) :
    (migrate space pages).migrated + (migrate space pages).errors.length = pages.length := by
  have h := migrate_foldl_count space ("Confluence_" ++ space) pages initMigrateState
  simpa [migrate, initMigrateState] using h

/- ### The page-tree builder groups every page under its immediate parent -/

theorem treeAdd_lookup_same (t : List (String × List ConfPage)) (k : String) (p : ConfPage) :
    ∃ l, treeLookup (treeAdd t k p) k = some l ∧ p ∈ l := by
  induction t with
  | nil => exact ⟨[p], by simp [treeAdd, treeLookup], by simp⟩
  | cons kv rest ih =>
    obtain ⟨k0, ps⟩ := kv
    by_cases hk : k0 = k
    · subst hk
      exact ⟨ps ++ [p], by simp [treeAdd, treeLookup], by simp⟩
    · obtain ⟨l, hl, hm⟩ := ih
      exact ⟨l, by simp [treeAdd, treeLookup, hk, hl], hm⟩

theorem treeAdd_lookup_mono (t : List (String × List ConfPage)) (k : String) (p : ConfPage)
    (k' : String) (p' : ConfPage) (h : ∃ l, treeLookup t k' = some l ∧ p' ∈ l) :
    ∃ l, treeLookup (treeAdd t k p) k' = some l ∧ p' ∈ l := by
  induction t with
  | nil =>
    obtain ⟨l, hl, _⟩ := h
    simp [treeLookup] at hl
  | cons kv rest ih =>
    obtain ⟨k0, ps⟩ := kv
    obtain ⟨l, hl, hm⟩ := h
    by_cases hk : k0 = k
    · subst hk
      by_cases hk' : k0 = k'
      · subst hk'
        have hpl : ps = l := by simpa [treeLookup] using hl
        subst hpl
        exact ⟨ps ++ [p], by simp [treeAdd, treeLookup], List.mem_append_left _ hm⟩
      · refine ⟨l, ?_, hm⟩
        simp only [treeLookup, if_neg hk'] at hl
        simp [treeAdd, treeLookup, hk', hl]
    · by_cases hk' : k0 = k'
      · subst hk'
        have hpl : ps = l := by simpa [treeLookup] using hl
        subst hpl
        exact ⟨ps, by simp [treeAdd, treeLookup, hk], hm⟩
      · simp only [treeLookup, if_neg hk'] at hl
        obtain ⟨l2, hl2, hm2⟩ := ih ⟨l, hl, hm⟩
        exact ⟨l2, by simp [treeAdd, treeLookup, hk, hk', hl2], hm2⟩

theorem build_foldl_mono (k' : String) (p' : ConfPage) :
    ∀ (ps : List ConfPage) (t : List (String × List ConfPage)),
      (∃ l, treeLookup t k' = some l ∧ p' ∈ l) →
      ∃ l, treeLookup (ps.foldl (fun t p => treeAdd t (parentKey p) p) t) k' = some l ∧ p' ∈ l := by
  intro ps
  induction ps with
  | nil => intro t h; exact h
  | cons q qs ih =>
    intro t h
    exact ih _ (treeAdd_lookup_mono t (parentKey q) q k' p' h)

theorem build_foldl_mem (p : ConfPage) :
    ∀ (ps : List ConfPage) (t : List (String × List ConfPage)), p ∈ ps →
      ∃ l, treeLookup (ps.foldl (fun t p => treeAdd t (parentKey p) p) t) (parentKey p) = some l ∧
        p ∈ l := by
  intro ps
  induction ps with
  | nil => intro t h; simp at h
  | cons q qs ih =>
    intro t h
    rcases List.mem_cons.mp h with rfl | h2
    · exact build_foldl_mono (parentKey p) p qs _ (treeAdd_lookup_same t (parentKey p) p)
    · exact ih _ h2

theorem build_page_tree_mem (ps : List ConfPage) (p : ConfPage) (hp : p ∈ ps) :
    ∃ l, treeLookup (build_page_tree ps) (parentKey p) = some l ∧ p ∈ l :=
  build_foldl_mem p ps [] hp

/- ### The sanitizers only emit grammar-safe characters -/

theorem sanitize_chars (t : String) :
    ∀ c ∈ (sanitize_page_name t).toList, sanAllowed c = true := by
  intro c hc
  unfold sanitize_page_name at hc
  rw [toList_asString] at hc
  have hc2 := List.take_subset 100 _ hc
  obtain ⟨a, ha, rfl⟩ := List.mem_map.mp hc2
  have hka : sanKeep a = true := (List.mem_filter.mp ha).2
  by_cases hsp : a = ' '
  · simp [hsp, sanAllowed]
  · rw [if_neg hsp]
    have hs : (((a.isAlpha = true ∨ a.isDigit = true) ∨ a = '_') ∨ a = '-') ∨ a = ' ' := by
      simpa [sanKeep, Bool.or_eq_true] using hka
    rcases hs with ⟨⟨⟨h5 | h5⟩ | h5⟩ | h5⟩ | h5
    · simp [sanAllowed, h5]
    · simp [sanAllowed, h5]
    · simp [sanAllowed, h5]
    · simp [sanAllowed, h5]
    · exact absurd h5 hsp

theorem sanitize_len (t : String) : (sanitize_page_name t).toList.length ≤ 100 := by
  unfold sanitize_page_name
  rw [toList_asString]
  exact List.length_take_le 100 _

theorem sanitize_bridge_chars (n : String) :
    ∀ c ∈ (sanitize_page_name_bridge n).toList, sanAllowed c = true := by
  intro c hc
  unfold sanitize_page_name_bridge at hc
  rw [toList_asString] at hc
  obtain ⟨a, _, rfl⟩ := List.mem_map.mp hc
  by_cases hk : sanKeepBridge a = true
  · rw [if_pos hk]
    exact hk
  · rw [if_neg hk]
    rfl

/- ### Claim theorems -/

/-- Claim C1: the claim states that emphasis markers inside an inline-code
span stay literal because the inline-code pass runs before the emphasis
pass.  The passes do run in that order, but the emphasis pass re-matches
the `##…##` text the inline-code pass produced: the input `` `*not bold*` ``
comes out as `##//not bold//##`, with the asterisks rewritten to italic
markers inside the code span.  This theorem evaluates the embedded
`_md_to_xwiki` at that failing input. -/
theorem c1_inline_code_emphasis_eval :
    md_to_xwiki ("\x60*not bold*\x60") = "##//not bold//##" ∧
    md_to_xwiki ("\x60*not bold*\x60") ≠ "##*not bold*##" := by
  constructor
  · rfl
  · decide

/-- Claim C2: both rewriters are total pure functions: for every input
string each returns a string.  In this shallow embedding both are total
Lean functions (no `Option`/`Except` escape, no partiality), which is the
formal rendering of "never raises and always returns a string". -/
theorem c2_rewrite_total : ∀ s : String, ∃ t u : String,
    confluence_storage_to_xwiki s = t ∧ md_to_xwiki s = u :=
  fun _ => ⟨_, _, rfl, rfl⟩

/-- Claim C3 counterexample: five documents where document 3's attachment
download raises do NOT yield a report with 4 successes and 1 recorded
partial failure.  The inner `try/except` only prints the attachment error;
the document still counts as migrated, so the report shows `migrated = 5`
and an empty `errors` list. -/
theorem c3_attachment_report_counterexample :
    (migrate ("S")
      [⟨"P1", "1", "", .ok (), .ok []⟩,
       ⟨"P2", "2", "", .ok (), .ok []⟩,
       ⟨"P3", "3", "", .ok (), .ok [⟨"file.png", "/dl/f", "image/png", .error ("timeout"), .ok ()⟩]⟩,
       ⟨"P4", "4", "", .ok (), .ok []⟩,
       ⟨"P5", "5", "", .ok (), .ok []⟩]).migrated = 5 ∧
    (migrate ("S")
      [⟨"P1", "1", "", .ok (), .ok []⟩,
       ⟨"P2", "2", "", .ok (), .ok []⟩,
       ⟨"P3", "3", "", .ok (), .ok [⟨"file.png", "/dl/f", "image/png", .error ("timeout"), .ok ()⟩]⟩,
       ⟨"P4", "4", "", .ok (), .ok []⟩,
       ⟨"P5", "5", "", .ok (), .ok []⟩]).errors = [] ∧
    (migrate ("S")
      [⟨"P1", "1", "", .ok (), .ok []⟩,
       ⟨"P2", "2", "", .ok (), .ok []⟩,
       ⟨"P3", "3", "", .ok (), .ok [⟨"file.png", "/dl/f", "image/png", .error ("timeout"), .ok ()⟩]⟩,
       ⟨"P4", "4", "", .ok (), .ok []⟩,
       ⟨"P5", "5", "", .ok (), .ok []⟩]).migrated ≠ 4 := by
  refine ⟨?_, ?_, ?_⟩ <;> decide

/-- Claim C3, amended: a page-level exception (page write or attachment
listing) is recorded as `title: message` in the errors list and the batch
continues — every page contributes exactly one success or one recorded
error, so the batch is never aborted.  An attachment failure, however, is
only printed: the page text stays in place, sibling processing continues,
and the document still counts as a full success (5 migrated, 0 errors in
the five-document scenario, with documents 4 and 5 fully processed). -/
theorem c3_batch_isolation_amended :
    (∀ space pages, (migrate space pages).migrated + (migrate space pages).errors.length
        = pages.length) ∧
    ((migrate ("S")
      [⟨"P1", "1", "", .ok (), .ok []⟩,
       ⟨"P2", "2", "", .ok (), .ok []⟩,
       ⟨"P3", "3", "", .ok (), .ok [⟨"file.png", "/dl/f", "image/png", .error ("timeout"), .ok ()⟩]⟩,
       ⟨"P4", "4", "", .ok (), .ok []⟩,
       ⟨"P5", "5", "", .ok (), .ok []⟩]).migrated = 5 ∧
     "    Attachment error (file.png): timeout" ∈ (migrate ("S")
      [⟨"P1", "1", "", .ok (), .ok []⟩,
       ⟨"P2", "2", "", .ok (), .ok []⟩,
       ⟨"P3", "3", "", .ok (), .ok [⟨"file.png", "/dl/f", "image/png", .error ("timeout"), .ok ()⟩]⟩,
       ⟨"P4", "4", "", .ok (), .ok []⟩,
       ⟨"P5", "5", "", .ok (), .ok []⟩]).printed ∧
     ((migrate ("S")
      [⟨"P1", "1", "", .ok (), .ok []⟩,
       ⟨"P2", "2", "", .ok (), .ok []⟩,
       ⟨"P3", "3", "", .ok (), .ok [⟨"file.png", "/dl/f", "image/png", .error ("timeout"), .ok ()⟩]⟩,
       ⟨"P4", "4", "", .ok (), .ok []⟩,
       ⟨"P5", "5", "", .ok (), .ok []⟩]).putPages.map (fun x => x.1))
        = ["P1", "P2", "P3", "P4", "P5"]) := by
  refine ⟨migrate_count, ?_, ?_, ?_⟩ <;> decide

/-- Claim C4 counterexample: the script's sanitizer DELETES characters
outside its class rather than replacing them with underscores
(`sanitize_page_name "a!b" = "ab"`, not `"a_b"`), and there is no per-run
uniqueness registry at all: two titles that sanitize to the same base name
are both written under that same name, the second without any numeric
suffix. -/
theorem c4_sanitize_counterexample :
    sanitize_page_name ("a!b") = "ab" ∧ sanitize_page_name ("a!b") ≠ "a_b" ∧
    sanitize_page_name ("x?") = "x" ∧ sanitize_page_name ("x!") = "x" ∧
    ((migrate ("S")
      [⟨"x?", "1", "", .ok (), .ok []⟩,
       ⟨"x!", "2", "", .ok (), .ok []⟩]).putPages.map (fun x => x.1)) = ["x", "x"] := by
  refine ⟨?_, ?_, ?_, ?_, ?_⟩ <;> decide

/-- Claim C4, amended: the script's sanitizer removes characters outside
`[A-Za-z0-9_\- ]` (the bridge variant replaces with underscores), maps
spaces to underscores and truncates to 100, so every emitted character is
in the target grammar `[A-Za-z0-9_-]`; an empty result falls back to
`Page_<id>` in the orchestrator; both functions are deterministic, but no
collision registry exists — equal sanitized names stay equal, without a
numeric suffix. -/
theorem c4_sanitize_amended :
    (∀ t, (sanitize_page_name t).toList.length ≤ 100) ∧
    (∀ t, ∀ c ∈ (sanitize_page_name t).toList, sanAllowed c = true) ∧
    (∀ n, ∀ c ∈ (sanitize_page_name_bridge n).toList, sanAllowed c = true) ∧
    ((migrate ("S") [⟨"???", "77", "", .ok (), .ok []⟩]).putPages.map (fun x => x.1))
      = ["Page_77"] ∧
    ((migrate ("S")
      [⟨"x?", "1", "", .ok (), .ok []⟩,
       ⟨"x!", "2", "", .ok (), .ok []⟩]).putPages.map (fun x => x.1)) = ["x", "x"] :=
  ⟨sanitize_len, sanitize_chars, sanitize_bridge_chars, by decide, by decide⟩

theorem c4_sanitize_amended_witness : sanAllowed 'a' = true :=
  c4_sanitize_amended.2.1 ("ab") 'a' (by decide)

/-- Claim C5 counterexample: on the three-document ancestor cycle
A→B→C→A the builder terminates but performs no cycle detection at all:
each document stays grouped under its cyclic parent, nothing is
reparented under the `"root"` sentinel (the tree has no `"root"` bucket),
and no warnings exist anywhere in `build_page_tree`. -/
theorem c5_cycle_counterexample :
    build_page_tree [⟨"A", ["B"]⟩, ⟨"B", ["C"]⟩, ⟨"C", ["A"]⟩]
      = [("B", [⟨"A", ["B"]⟩]), ("C", [⟨"B", ["C"]⟩]), ("A", [⟨"C", ["A"]⟩])] ∧
    treeLookup (build_page_tree [⟨"A", ["B"]⟩, ⟨"B", ["C"]⟩, ⟨"C", ["A"]⟩]) ("root") = none := by
  constructor <;> decide

/-- Claim C5, amended: `build_page_tree` groups every document under its
immediate parent (the last ancestor id, or the `"root"` sentinel when the
ancestor list is empty) and terminates on every input — it never follows
parent links, so a cycle cannot make it loop — but it performs no cycle
detection: cyclic documents keep their cyclic parents and none is
reparented under `"root"`. -/
theorem c5_tree_grouping_amended :
    (∀ ps p, p ∈ ps →
      ∃ l, treeLookup (build_page_tree ps) (parentKey p) = some l ∧ p ∈ l) ∧
    (∀ ps : List ConfPage, ∃ t, build_page_tree ps = t) ∧
    treeLookup (build_page_tree [⟨"A", ["B"]⟩, ⟨"B", ["C"]⟩, ⟨"C", ["A"]⟩]) ("root") = none :=
  ⟨build_page_tree_mem, fun _ => ⟨_, rfl⟩, by decide⟩

theorem c5_tree_grouping_witness :
    ∃ l, treeLookup (build_page_tree [⟨"A", ["B"]⟩]) ("B") = some l ∧
      (⟨"A", ["B"]⟩ : ConfPage) ∈ l :=
  c5_tree_grouping_amended.1 [⟨"A", ["B"]⟩] ⟨"A", ["B"]⟩ (by decide)

/-- Claim C6: the claim (and the spec's clarified nesting rule) says a run
that is both bold and italic renders as exactly `**//text//**`.  The code's
f-string `f"**//{ t }//***"` emits a stray third trailing asterisk:
evaluating the embedded `_docx_to_xwiki` on a normal-style paragraph with
one bold+italic run `"x"` yields `**//x//***`, not `**//x//**`. -/
theorem c6_docx_bold_italic_eval :
    docx_to_xwiki [⟨some ("Normal"), [⟨"x", true, true⟩]⟩] = "**//x//***" ∧
    runPart ⟨"x", true, true⟩ = ["**//x//***"] ∧
    docx_to_xwiki [⟨some ("Normal"), [⟨"x", true, true⟩]⟩] ≠ "**//x//**" := by
  refine ⟨?_, ?_, ?_⟩ <;> decide

set_option maxRecDepth 100000

/-- Claim C7 counterexample: a structured macro of an unrecognized
category (here `toc`) is NOT passed through as a generic callout block:
no callout pass matches it, the tag-stripping pass removes its markup, and
only the bare body text survives — the output `"hello"` contains no
callout braces at all. -/
theorem c7_unrecognized_macro_counterexample :
    confluence_storage_to_xwiki
      ("<ac:structured-macro ac:name=\"toc\"><ac:rich-text-body>hello</ac:rich-text-body></ac:structured-macro>")
      = "hello" ∧
    ¬ (['\x7b', '\x7b'] <:+: ("hello").toList) := by
  constructor
  · rfl
  · decide

/-- Claim C7, amended: for the four recognized categories the rewriter
emits a block that preserves the category name and the inner rich-text
verbatim, but its terminator repeats the opening marker (`{{info}}` …
`{{info}}`, no slash); a macro of any other category gets no callout
wrapper at all — its tags are stripped and only the inner body text is
kept (so the content, though not the block, survives). -/
theorem c7_callout_amended :
    confluence_storage_to_xwiki
      ("<ac:structured-macro ac:name=\"info\"><ac:rich-text-body>Be careful</ac:rich-text-body></ac:structured-macro>")
      = "\x7b\x7binfo\x7d\x7d\nBe careful\n\x7b\x7binfo\x7d\x7d" ∧
    confluence_storage_to_xwiki
      ("<ac:structured-macro ac:name=\"tip\"><ac:rich-text-body>Hint</ac:rich-text-body></ac:structured-macro>")
      = "\x7b\x7btip\x7d\x7d\nHint\n\x7b\x7btip\x7d\x7d" ∧
    confluence_storage_to_xwiki
      ("<ac:structured-macro ac:name=\"toc\"><ac:rich-text-body>hello</ac:rich-text-body></ac:structured-macro>")
      = "hello" := by
  refine ⟨?_, ?_, ?_⟩ <;> rfl

/-- Claim C8 counterexample: a Confluence code macro carrying a
`language` parameter (`python`) is rewritten to an UNtagged `{{code}}`
block — the macro pass's replacement never carries a language tag and the
parameter is swallowed by the regex's `.*?` — so the language is dropped,
contradicting "the language tag is preserved when present". -/
theorem c8_language_dropped_counterexample :
    confluence_storage_to_xwiki
      ("<ac:structured-macro ac:name=\"code\"><ac:parameter ac:name=\"language\">python</ac:parameter><ac:plain-text-body>print(1)</ac:plain-text-body></ac:structured-macro>")
      = "\x7b\x7bcode\x7d\x7d\nprint(1)\n\x7b\x7b/code\x7d\x7d" ∧
    ¬ (("python").toList <:+:
        ("\x7b\x7bcode\x7d\x7d\nprint(1)\n\x7b\x7b/code\x7d\x7d").toList) := by
  constructor
  · rfl
  · decide

/-- Claim C8, amended: the Markdown path preserves the fenced block's
language tag when present and emits an untagged block when absent (never
fabricating one); the Confluence path always emits an untagged `{{code}}`
block, discarding any language parameter. -/
theorem c8_code_language_amended :
    (∀ lang code : String, lang ≠ "" → replace_code_block lang code =
      "\x7b\x7bcode language=\x27" ++ lang ++ "\x27\x7d\x7d\n" ++ code ++
        "\n\x7b\x7b/code\x7d\x7d") ∧
    (∀ code : String, replace_code_block ("") code =
      "\x7b\x7bcode\x7d\x7d\n" ++ code ++ "\n\x7b\x7b/code\x7d\x7d") ∧
    md_to_xwiki ("```py\nx\n```")
      = "\x7b\x7bcode language=\x27py\x27\x7d\x7d\nx\n\n\x7b\x7b/code\x7d\x7d" ∧
    md_to_xwiki ("```\nx\n```") = "\x7b\x7bcode\x7d\x7d\nx\n\n\x7b\x7b/code\x7d\x7d" ∧
    confluence_storage_to_xwiki
      ("<ac:structured-macro ac:name=\"code\"><ac:plain-text-body>x</ac:plain-text-body></ac:structured-macro>")
      = "\x7b\x7bcode\x7d\x7d\nx\n\x7b\x7b/code\x7d\x7d" := by
  refine ⟨fun lang code h => ?_, fun code => ?_, ?_, ?_, ?_⟩
  · simp [replace_code_block, h]
  · simp [replace_code_block]
  · rfl
  · rfl
  · rfl

theorem c8_code_language_witness :
    replace_code_block ("py") ("x") =
      "\x7b\x7bcode language=\x27" ++ "py" ++ "\x27\x7d\x7d\n" ++ "x" ++
        "\n\x7b\x7b/code\x7d\x7d" :=
  c8_code_language_amended.1 ("py") ("x") (by decide)

/-- Claim C9: already-canonical text is a fixed point of both rewriters.
`mdCanonical`/`confCanonical` capture "already in canonical target markup
with respect to headings, emphasis and links, with no source-dialect
markup": canonical `= H =`, `**b**`, `//i//`, `[[text>>url]]` all qualify.
Applying either rewriter to such a string returns it unchanged. -/
theorem c9_canonical_fixed_point : ∀ s : String,
    (mdCanonical s = true → md_to_xwiki s = s) ∧
    (confCanonical s = true → confluence_storage_to_xwiki s = s) := by
  intro s
  constructor
  · intro h
    unfold md_to_xwiki
    rw [mdPasses_id s.toList (by simpa [mdCanonical] using h), asString_toList]
  · intro h
    unfold confluence_storage_to_xwiki
    rw [confPasses_id s.toList (by simpa [confCanonical] using h), asString_toList]

theorem c9_canonical_fixed_point_witness :
    md_to_xwiki ("= H =\n**b** //i// [[text>>url]]") = "= H =\n**b** //i// [[text>>url]]" ∧
    confluence_storage_to_xwiki ("= H =\n**b** //i// [[text>>url]]")
      = "= H =\n**b** //i// [[text>>url]]" :=
  ⟨(c9_canonical_fixed_point _).1 (by decide), (c9_canonical_fixed_point _).2 (by decide)⟩

/-- Claim C10: for every input, the Confluence rewriter's output has no
leading or trailing whitespace and contains no run of three or more
consecutive newlines: the `\n{3,} → \n\n` collapse runs last and the
result is stripped. -/
theorem c10_output_normalized : ∀ s : String,
    (∀ c, (confluence_storage_to_xwiki s).toList.head? = some c → isPyWs c = false) ∧
    (∀ c, (confluence_storage_to_xwiki s).toList.getLast? = some c → isPyWs c = false) ∧
    ¬ (['\n', '\n', '\n'] <:+: (confluence_storage_to_xwiki s).toList) := by
  intro s
  unfold confluence_storage_to_xwiki confluencePasses
  rw [toList_asString]
  exact ⟨pyStrip_head _, pyStrip_last _,
    pyStrip_noTriple _ (collapse_noTriple _ _ (le_refl _))⟩

theorem c10_output_normalized_witness : isPyWs '=' = false :=
  (c10_output_normalized ("<h1>T</h1>  ")).1 '=' (by decide)
